import Mathlib

/-!
Verification of the transaction-transform-and-match core of a beangulp
importer for Teller bank data (`teller.py`).

The embedding models Python `Decimal` amounts as exact rationals (`ℚ`),
`datetime.date` as a natural number of days (with `date.min` as `0`, so
every date is `≥` the initial accumulator of the latest-date fold) and
`datetime.timedelta` as a natural number of days.  Python dicts appear as
association lists with distinct keys, looked up by structural equality,
which matches dict membership and `[]` access.  Python string comparison
is code-point lexicographic; `charsLt` below implements exactly that
order, and tuple sorting of `(account, fin_id, currency)` keys is the
corresponding lexicographic order on triples.  Exceptions (`KeyError`
from a dict access) are modelled with `Except`.
-/

/-! ## String constants from the source -/

/-- The beancount constant `interpolate.AUTOMATIC_META`, the marker of
interpolated postings. -/
def AUTOMATIC_META : String := "__automatic__"

/-- The posting metadata key carrying the external (Teller/Plaid) transaction
identifier, the `fin_id` key in the source. -/
def FIN_ID_KEY : String := "fin_id"

/-- The key tested by `Importer.extract` when deciding whether to use the
counterparty name, the `counter_part` key in the source (line 143). -/
def COUNTER_PART_KEY : String := "counter_part"

/-- The key actually read by `Importer.extract` for the counterparty name,
the `counterparty` key in the source (line 144). -/
def COUNTERPARTY_KEY : String := "counterparty"

/-- The account type string that triggers balance negation, `"credit"` in the
source (line 163). -/
def CREDIT : String := "credit"

/-- The beancount flag `flags.FLAG_OKAY`. -/
def FLAG_OKAY : String := "*"

/-! ## Code-point lexicographic order on strings and fingerprint keys

Python compares strings by code points and tuples lexicographically; the
`sorted(...)` call of the comparator (line 62) uses that order.  These
Bool-valued functions implement it in a structurally recursive way. -/

/-- Strict code-point lexicographic order on character lists. -/
def charsLt : List Char → List Char → Bool
  | [], [] => false
  | [], _ :: _ => true
  | _ :: _, [] => false
  | c1 :: r1, c2 :: r2 =>
    if c1.toNat < c2.toNat then true
    else if c2.toNat < c1.toNat then false
    else charsLt r1 r2

/-- Strict order on strings, as Python `<` on `str`. -/
def strLtb (s1 s2 : String) : Bool := charsLt s1.data s2.data

/-- Strict order on the optional fin_id component of a key (`None` first;
in the source this component is never `None`, see `amounts_map`). -/
def optLtb : Option String → Option String → Bool
  | none, none => false
  | none, some _ => true
  | some _, none => false
  | some s1, some s2 => strLtb s1 s2

/-- A fingerprint key: `(posting.account, plaid_id, currency)` (line 101). -/
abbrev AmountKey := String × Option String × String

/-- Non-strict lexicographic order on fingerprint keys, as Python compares
the `(account, fin_id, currency)` tuples when sorting. -/
def keyLeb (k1 k2 : AmountKey) : Bool :=
  if strLtb k1.1 k2.1 then true
  else if strLtb k2.1 k1.1 then false
  else if optLtb k1.2.1 k2.2.1 then true
  else if optLtb k2.2.1 k1.2.1 then false
  else !(strLtb k2.2.2 k1.2.2)

/-- The key order as a relation, for `List.insertionSort`. -/
def keyLEP (k1 k2 : AmountKey) : Prop := keyLeb k1 k2 = true

instance : DecidableRel keyLEP := fun k1 k2 => inferInstanceAs (Decidable (keyLeb k1 k2 = true))

/-! ## Data model -/

/-- The `currency` attribute attached to the units of a posting: either an actual
string or some non-string value. -/
inductive CurVal
  | str (s : String)
  | nonstr
deriving DecidableEq

/-- The `units` field of a posting: `None`, a beancount `Amount` (a number
with a currency), or some other non-`Amount` value. -/
inductive UnitsField
  | missing
  | amount (number : ℚ) (cur : CurVal)
  | other
deriving DecidableEq

/-- One leg of a transaction (`beancount.core.data.Posting`), restricted to
the fields the core reads: account, units and metadata.  `meta` is `none`
for `None` and `some m` for a dict with entries `m`. -/
structure Posting where
  account : String
  units : UnitsField
  meta : Option (List (String × String))
deriving DecidableEq

/-- A canonical ledger transaction (`beancount.core.data.Transaction`),
restricted to the fields the core reads or produces. -/
structure Transaction where
  date : ℕ
  flag : String
  payee : String
  narration : String
  postings : List Posting
deriving DecidableEq

/-! ## Fingerprint aggregation: `amounts_map` (lines 83-103) -/

/-- Association-list lookup with string keys, as Python dict membership /
access (`k in d`, `d[k]`). -/
def assocLookup {α : Type} : List (String × α) → String → Option α
  | [], _ => none
  | (k, v) :: rest, key => if k = key then some v else assocLookup rest key

/-- Dict key membership: `key in meta`. -/
def metaHasKey (m : List (String × String)) (key : String) : Bool :=
  (assocLookup m key).isSome

/-- The fingerprint mapping, an association list with distinct keys standing
for the `defaultdict(D)`. -/
abbrev AMap := List (AmountKey × ℚ)

/-- Python `amounts[key] += number` on a `defaultdict(D)`: a missing key starts at
`D()` (zero), so inserting a fresh key stores `number` itself. -/
def addToMap : AMap → AmountKey → ℚ → AMap
  | [], k, v => [(k, v)]
  | (k', v') :: rest, k, v =>
    if k' = k then (k', v' + v) :: rest else (k', v') :: addToMap rest k v

/-- Lookup in the fingerprint mapping (`amounts1[key]`); in the comparator it
is only applied to keys present in the map, so the default is irrelevant. -/
def lookupAmount : AMap → AmountKey → ℚ
  | [], _ => 0
  | (k', v) :: rest, k => if k' = k then v else lookupAmount rest k

/-- The body of the `for posting in entry.postings` loop of `amounts_map`
(lines 92-102): skip a posting with falsy (absent or empty) metadata, skip
interpolated postings and postings without a `fin_id`, and accumulate the
number of the posting when `isinstance(posting.units, amount.Amount) and
posting.units.currency` is a string. -/
def amStep (amounts : AMap) (posting : Posting) : AMap :=
  match posting.meta with
  | none => amounts
  | some m =>
    if m.isEmpty then amounts
    else if metaHasKey m AUTOMATIC_META || !(metaHasKey m FIN_ID_KEY) then amounts
    else
      match posting.units with
      | UnitsField.amount number (CurVal.str currency) =>
          addToMap amounts (posting.account, assocLookup m FIN_ID_KEY, currency) number
      | _ => amounts

/-- Python `amounts_map(entry)`: the fingerprint of a transaction (lines 83-103). -/
def amounts_map (entry : Transaction) : AMap :=
  entry.postings.foldl amStep []

/-! ## Similarity comparator: `TellerSimilarityComparator.__call__` (lines 34-80) -/

/-- The tolerance fraction `EPSILON`, five percent (line 23). -/
def EPSILON : ℚ := 5 / 100

/-- Lines 73-74: `if diff < ONE: diff = ONE/diff`, normalizing the ratio to
be at least one. -/
def normDiff (diff : ℚ) : ℚ := if diff < 1 then 1 / diff else diff

/-- The body of the `for key in sorted(common_keys)` loop (lines 63-76) for a
single key: `some true` stands for `break` (which reaches `return True`),
`some false` for the `return False` on a singular ratio, and `none` for
falling through to the next key. -/
def keyStep (number1 number2 : ℚ) : Option Bool :=
  if number1 = 0 ∧ number2 = 0 then some true
  else
    let diff := abs (if number2 ≠ 0 then number1 / number2 else number2 / number1)
    if diff = 0 then some false
    else if normDiff diff - 1 < EPSILON then some true
    else none

/-- The `for ... else` loop over the sorted common keys (lines 62-78): an
exhausted loop hits the `else: return False` branch. -/
def scanKeys (amounts1 amounts2 : AMap) : List AmountKey → Bool
  | [] => false
  | key :: rest =>
    match keyStep (lookupAmount amounts1 key) (lookupAmount amounts2 key) with
    | some b => b
    | none => scanKeys amounts1 amounts2 rest

/-- Python `sorted(set(amounts1) & set(amounts2))` (line 61): the distinct keys
present in both maps, in the Python sorted (lexicographic) order. -/
def commonKeys (amounts1 amounts2 : AMap) : List AmountKey :=
  List.insertionSort keyLEP
    ((amounts1.map Prod.fst).filter (fun k => decide (k ∈ amounts2.map Prod.fst)))

/-- Lines 45-47: the absolute difference of the two entry dates. -/
def dateDelta (entry1 entry2 : Transaction) : ℕ :=
  if entry1.date > entry2.date then entry1.date - entry2.date
  else entry2.date - entry1.date

/-- Lines 44-49: whether the date gate rejects the pair (`delta >
self.max_date_delta` when a maximum is configured). -/
def dateGateFails (max_date_delta : Option ℕ) (entry1 entry2 : Transaction) : Bool :=
  match max_date_delta with
  | some mdd => decide (dateDelta entry1 entry2 > mdd)
  | none => false

/-- Python `TellerSimilarityComparator.__call__(entry1, entry2)` (lines 34-80).  The
per-identity cache (lines 51-58) only memoizes the pure `amounts_map`, so it
is dropped from the embedding. -/
def comparatorCall (max_date_delta : Option ℕ) (entry1 entry2 : Transaction) : Bool :=
  if dateGateFails max_date_delta entry1 entry2 = true then false
  else
    scanKeys (amounts_map entry1) (amounts_map entry2)
      (commonKeys (amounts_map entry1) (amounts_map entry2))

/-! ## The continue-on-miss reading of the tolerance scan taken by the spec -/

/-- Modelled from the spec: the design note assumes that a singular ratio
(exactly one side zero) is treated as "not matching for this key" with the
scan continuing to the remaining common keys, so that only the final
no-key-passed branch returns false.  This per-key step differs from
`keyStep` exactly there: `none` (continue) instead of `some false`. -/
def keyStepSpec (number1 number2 : ℚ) : Option Bool :=
  if number1 = 0 ∧ number2 = 0 then some true
  else if number1 = 0 ∨ number2 = 0 then none
  else if max (abs number1) (abs number2) / min (abs number1) (abs number2) - 1 < EPSILON
    then some true
  else none

/-- Modelled from the spec: the tolerance scan under the continue-on-miss
reading. -/
def scanKeysSpec (amounts1 amounts2 : AMap) : List AmountKey → Bool
  | [] => false
  | key :: rest =>
    match keyStepSpec (lookupAmount amounts1 key) (lookupAmount amounts2 key) with
    | some b => b
    | none => scanKeysSpec amounts1 amounts2 rest

/-- Modelled from the spec: the comparator with the continue-on-miss scan. -/
def comparatorSpecContinue (max_date_delta : Option ℕ) (entry1 entry2 : Transaction) : Bool :=
  if dateGateFails max_date_delta entry1 entry2 = true then false
  else
    scanKeysSpec (amounts_map entry1) (amounts_map entry2)
      (commonKeys (amounts_map entry1) (amounts_map entry2))

/-! ## Record transformer: `Importer.extract` (lines 129-167) -/

/-- The object under the `counterparty` key of the details (only its `name` is read). -/
structure Counterparty where
  name : String
deriving DecidableEq

/-- One element of the `transactions` array of the Teller JSON file, with
its date already parsed to a day number (`dateutil.parser.parse` is an
external collaborator). -/
structure RawTransaction where
  id : String
  date : ℕ
  description : String
  details : List (String × Counterparty)
  amount : ℚ
deriving DecidableEq

/-- The parts of the Teller JSON file read by `extract`: the account currency
and type, the ledger balance (`balances.ledger`, already parsed by `D`), and
the transactions. -/
structure TellerJson where
  currency : String
  acct_type : String
  ledger : ℚ
  transactions : List RawTransaction
deriving DecidableEq

/-- A `data.Balance` directive, restricted to the fields `extract` sets. -/
structure BalanceDirective where
  date : ℕ
  account : String
  number : ℚ
  currency : String
deriving DecidableEq

/-- An output entry of `extract`: a transaction or a balance assertion. -/
inductive OutEntry
  | txn (t : Transaction)
  | bal (b : BalanceDirective)
deriving DecidableEq

/-- Lines 142-155 for a single record: the payee is the counterparty name
when the key `counter_part` is present in the details (in which case the
dict access of the `counterparty` key may raise `KeyError`, modelled as
`Except.error`), else the description. -/
def merchOf (t : RawTransaction) : Except Unit String :=
  if (assocLookup t.details COUNTER_PART_KEY).isSome then
    match assocLookup t.details COUNTERPARTY_KEY with
    | some cp => Except.ok cp.name
    | none => Except.error ()
  else Except.ok t.description

/-- Lines 142-155: build one canonical transaction from one raw record.  The
single synthesized posting carries the negated amount and the `fin_id`
metadata. -/
def mkTxn (account_name currency : String) (t : RawTransaction) : Except Unit Transaction :=
  match merchOf t with
  | Except.error e => Except.error e
  | Except.ok merch =>
    Except.ok
      { date := t.date, flag := FLAG_OKAY, payee := merch, narration := t.description,
        postings := [{ account := account_name,
                       units := UnitsField.amount (-t.amount) (CurVal.str currency),
                       meta := some [(FIN_ID_KEY, t.id)] }] }

/-- The `for index, transaction in enumerate(...)` loop (lines 138-156): one
transaction per record, in order; a raised `KeyError` aborts the whole
extraction. -/
def buildTxns (account_name currency : String) : List RawTransaction → Except Unit (List Transaction)
  | [] => Except.ok []
  | t :: rest =>
    match mkTxn account_name currency t with
    | Except.error e => Except.error e
    | Except.ok tx =>
      match buildTxns account_name currency rest with
      | Except.error e => Except.error e
      | Except.ok txs => Except.ok (tx :: txs)

/-- Line 140: `latest_date = t_date if t_date > latest_date else latest_date`. -/
def latestStep (latest_date : ℕ) (t : RawTransaction) : ℕ :=
  if t.date > latest_date then t.date else latest_date

/-- The latest transaction date of the batch, folded from `date.min`
(day `0` in this encoding, lines 136-140). -/
def latestDate (ts : List RawTransaction) : ℕ := ts.foldl latestStep 0

/-- Python `Importer.extract` (lines 129-167): the canonical transactions followed,
when the batch is non-empty, by one balance assertion dated the day after
the latest transaction date, negated for `"credit"` accounts. -/
def extract (account_name : String) (j : TellerJson) : Except Unit (List OutEntry) :=
  match buildTxns account_name j.currency j.transactions with
  | Except.error e => Except.error e
  | Except.ok ts =>
    let entries := ts.map OutEntry.txn
    if entries.length ≠ 0 then
      Except.ok (entries ++ [OutEntry.bal
        { date := latestDate j.transactions + 1, account := account_name,
          number := if j.acct_type = CREDIT then -j.ledger else j.ledger,
          currency := j.currency }])
    else Except.ok entries

/-! ## The key order is a decidable linear order -/

lemma charsLt_cons_iff (c1 c2 : Char) (r1 r2 : List Char) :
    charsLt (c1 :: r1) (c2 :: r2) = true ↔
      c1.toNat < c2.toNat ∨ (c1.toNat = c2.toNat ∧ charsLt r1 r2 = true) := by
  simp only [charsLt]
  split_ifs with h1 h2
  · simp [h1]
  · constructor
    · intro h; simp at h
    · rintro (h | ⟨h, -⟩) <;> omega
  · have heq : c1.toNat = c2.toNat := by omega
    simp [heq]

lemma charsLt_irrefl : ∀ l, charsLt l l = false
  | [] => rfl
  | c :: r => by simp [charsLt, charsLt_irrefl r]

lemma charsLt_trans : ∀ (a b c : List Char),
    charsLt a b = true → charsLt b c = true → charsLt a c = true
  | [], [], _, hab, _ => by simp [charsLt] at hab
  | [], _ :: _, [], _, hbc => by simp [charsLt] at hbc
  | [], _ :: _, _ :: _, _, _ => rfl
  | _ :: _, [], _, hab, _ => by simp [charsLt] at hab
  | _ :: _, _ :: _, [], _, hbc => by simp [charsLt] at hbc
  | a1 :: ra, b1 :: rb, c1 :: rc, hab, hbc => by
    rw [charsLt_cons_iff] at hab hbc ⊢
    rcases hab with h | ⟨h, ht⟩ <;> rcases hbc with h' | ⟨h', ht'⟩
    · exact Or.inl (by omega)
    · exact Or.inl (by omega)
    · exact Or.inl (by omega)
    · exact Or.inr ⟨by omega, charsLt_trans ra rb rc ht ht'⟩

lemma charsLt_connex : ∀ (a b : List Char),
    charsLt a b = false → charsLt b a = false → a = b
  | [], [], _, _ => rfl
  | [], _ :: _, hab, _ => by simp [charsLt] at hab
  | _ :: _, [], _, hba => by simp [charsLt] at hba
  | a1 :: ra, b1 :: rb, hab, hba => by
    have h1 : ¬ (a1.toNat < b1.toNat ∨ (a1.toNat = b1.toNat ∧ charsLt ra rb = true)) := by
      rw [← charsLt_cons_iff]; simp [hab]
    have h2 : ¬ (b1.toNat < a1.toNat ∨ (b1.toNat = a1.toNat ∧ charsLt rb ra = true)) := by
      rw [← charsLt_cons_iff]; simp [hba]
    push_neg at h1 h2
    have heq : a1.toNat = b1.toNat := by omega
    have hta : charsLt ra rb = false := by simpa using h1.2 heq
    have htb : charsLt rb ra = false := by simpa using h2.2 heq.symm
    have hc : a1 = b1 := Char.ext (UInt32.ext heq)
    rw [hc, charsLt_connex ra rb hta htb]

lemma strLtb_irrefl (s : String) : strLtb s s = false := charsLt_irrefl s.data

lemma strLtb_trans {a b c : String} (h1 : strLtb a b = true) (h2 : strLtb b c = true) :
    strLtb a c = true := charsLt_trans _ _ _ h1 h2

lemma strLtb_connex : ∀ (a b : String), strLtb a b = false → strLtb b a = false → a = b
  | ⟨da⟩, ⟨db⟩, h1, h2 => congrArg String.mk (charsLt_connex da db h1 h2)

lemma strLtb_asymm {a b : String} (h : strLtb a b = true) : strLtb b a = false := by
  by_contra hc
  have h2 : strLtb b a = true := by simpa using hc
  have h3 := strLtb_trans h h2
  rw [strLtb_irrefl] at h3
  exact Bool.false_ne_true h3

lemma optLtb_irrefl (o : Option String) : optLtb o o = false := by
  cases o <;> simp [optLtb, strLtb_irrefl]

lemma optLtb_trans : ∀ (a b c : Option String),
    optLtb a b = true → optLtb b c = true → optLtb a c = true
  | none, none, _, h1, _ => by simp [optLtb] at h1
  | none, some _, none, _, h2 => by simp [optLtb] at h2
  | none, some _, some _, _, _ => rfl
  | some _, none, _, h1, _ => by simp [optLtb] at h1
  | some _, some _, none, _, h2 => by simp [optLtb] at h2
  | some s1, some s2, some s3, h1, h2 => strLtb_trans h1 h2

lemma optLtb_connex : ∀ (a b : Option String),
    optLtb a b = false → optLtb b a = false → a = b
  | none, none, _, _ => rfl
  | none, some _, h1, _ => by simp [optLtb] at h1
  | some _, none, _, h2 => by simp [optLtb] at h2
  | some s1, some s2, h1, h2 => congrArg some (strLtb_connex s1 s2 h1 h2)

lemma optLtb_asymm {a b : Option String} (h : optLtb a b = true) : optLtb b a = false := by
  by_contra hc
  have h2 : optLtb b a = true := by simpa using hc
  have h3 := optLtb_trans a b a h h2
  rw [optLtb_irrefl] at h3
  exact Bool.false_ne_true h3

lemma keyLeb_eq_true_iff (k1 k2 : AmountKey) : keyLeb k1 k2 = true ↔
    strLtb k1.1 k2.1 = true ∨
      (strLtb k1.1 k2.1 = false ∧ strLtb k2.1 k1.1 = false ∧
        (optLtb k1.2.1 k2.2.1 = true ∨
          (optLtb k1.2.1 k2.2.1 = false ∧ optLtb k2.2.1 k1.2.1 = false ∧
            strLtb k2.2.2 k1.2.2 = false))) := by
  unfold keyLeb
  cases hA : strLtb k1.1 k2.1 <;> cases hB : strLtb k2.1 k1.1 <;>
    cases hC : optLtb k1.2.1 k2.2.1 <;> cases hD : optLtb k2.2.1 k1.2.1 <;>
      simp [hA, hB, hC, hD]

instance : IsTotal AmountKey keyLEP := by
  constructor
  intro k1 k2
  unfold keyLEP
  rw [keyLeb_eq_true_iff, keyLeb_eq_true_iff]
  rcases Bool.eq_false_or_eq_true (strLtb k1.1 k2.1) with hA | hA
  · exact Or.inl (Or.inl hA)
  · rcases Bool.eq_false_or_eq_true (strLtb k2.1 k1.1) with hB | hB
    · exact Or.inr (Or.inl hB)
    · rcases Bool.eq_false_or_eq_true (optLtb k1.2.1 k2.2.1) with hC | hC
      · exact Or.inl (Or.inr ⟨hA, hB, Or.inl hC⟩)
      · rcases Bool.eq_false_or_eq_true (optLtb k2.2.1 k1.2.1) with hD | hD
        · exact Or.inr (Or.inr ⟨hB, hA, Or.inl hD⟩)
        · rcases Bool.eq_false_or_eq_true (strLtb k2.2.2 k1.2.2) with hE | hE
          · exact Or.inr (Or.inr ⟨hB, hA, Or.inr ⟨hD, hC, strLtb_asymm hE⟩⟩)
          · exact Or.inl (Or.inr ⟨hA, hB, Or.inr ⟨hC, hD, hE⟩⟩)

instance : IsTrans AmountKey keyLEP := by
  constructor
  intro a b c h1 h2
  unfold keyLEP at h1 h2 ⊢
  rw [keyLeb_eq_true_iff] at h1 h2 ⊢
  rcases h1 with h1 | ⟨ha1, ha2, h1⟩
  · rcases h2 with h2 | ⟨hb1, hb2, -⟩
    · exact Or.inl (strLtb_trans h1 h2)
    · have hbc := strLtb_connex _ _ hb1 hb2
      exact Or.inl (hbc ▸ h1)
  · have hab := strLtb_connex _ _ ha1 ha2
    rcases h2 with h2 | ⟨hb1, hb2, h2⟩
    · refine Or.inl ?_
      rw [hab]; exact h2
    · refine Or.inr ⟨?_, ?_, ?_⟩
      · rw [hab]; exact hb1
      · rw [hab]; exact hb2
      · rcases h1 with h1 | ⟨hc1, hc2, h1⟩
        · rcases h2 with h2 | ⟨hd1, hd2, -⟩
          · exact Or.inl (optLtb_trans _ _ _ h1 h2)
          · have := optLtb_connex _ _ hd1 hd2
            refine Or.inl ?_
            rw [← this]; exact h1
        · have habo := optLtb_connex _ _ hc1 hc2
          rcases h2 with h2 | ⟨hd1, hd2, h2⟩
          · refine Or.inl ?_
            rw [habo]; exact h2
          · have hbco := optLtb_connex _ _ hd1 hd2
            refine Or.inr ⟨?_, ?_, ?_⟩
            · rw [habo]; exact hd1
            · rw [habo]; exact hd2
            · by_contra hcc
              have hcc' : strLtb c.2.2 a.2.2 = true := by simpa using hcc
              by_cases hbc : strLtb b.2.2 c.2.2 = true
              · have h4 : strLtb b.2.2 a.2.2 = true := strLtb_trans hbc hcc'
                rw [h1] at h4
                exact Bool.false_ne_true h4
              · have hbc' : strLtb b.2.2 c.2.2 = false := by simpa using hbc
                have heq := strLtb_connex _ _ h2 hbc'
                rw [heq] at hcc'
                rw [h1] at hcc'
                exact Bool.false_ne_true hcc'

instance : IsAntisymm AmountKey keyLEP := by
  constructor
  intro a b h1 h2
  unfold keyLEP at h1 h2
  rw [keyLeb_eq_true_iff] at h1 h2
  rcases h1 with h1 | ⟨ha1, ha2, h1⟩
  · rcases h2 with h2 | ⟨hb1, hb2, -⟩
    · rw [strLtb_asymm h1] at h2
      exact absurd h2 (by simp)
    · rw [h1] at hb2
      exact absurd hb2 (by simp)
  · rcases h2 with h2 | ⟨hb1, hb2, h2⟩
    · rw [h2] at ha2
      exact absurd ha2 (by simp)
    · have e1 : a.1 = b.1 := strLtb_connex _ _ ha1 ha2
      rcases h1 with h1 | ⟨hc1, hc2, h1⟩
      · rcases h2 with h2 | ⟨hd1, hd2, -⟩
        · rw [optLtb_asymm h1] at h2
          exact absurd h2 (by simp)
        · rw [h1] at hd2
          exact absurd hd2 (by simp)
      · rcases h2 with h2 | ⟨hd1, hd2, h2⟩
        · rw [h2] at hc2
          exact absurd hc2 (by simp)
        · have e2 : a.2.1 = b.2.1 := optLtb_connex _ _ hc1 hc2
          have e3 : a.2.2 = b.2.2 := strLtb_connex _ _ h2 h1
          exact Prod.ext e1 (Prod.ext e2 e3)

/-! ## Fingerprint maps have distinct keys -/

lemma mem_keys_addToMap : ∀ (m : AMap) (k j : AmountKey) (v : ℚ),
    (j ∈ (addToMap m k v).map Prod.fst ↔ j ∈ m.map Prod.fst ∨ j = k)
  | [], k, j, v => by simp [addToMap]
  | (k', v') :: rest, k, j, v => by
    by_cases h : k' = k
    · simp only [addToMap, if_pos h, List.map_cons, List.mem_cons]
      subst h
      tauto
    · simp only [addToMap, if_neg h, List.map_cons, List.mem_cons,
        mem_keys_addToMap rest k j v]
      tauto

lemma nodup_keys_addToMap : ∀ (m : AMap) (k : AmountKey) (v : ℚ),
    (m.map Prod.fst).Nodup → ((addToMap m k v).map Prod.fst).Nodup
  | [], k, v, _ => by simp [addToMap]
  | (k', v') :: rest, k, v, h => by
    simp only [List.map_cons, List.nodup_cons] at h
    by_cases hk : k' = k
    · simp only [addToMap, if_pos hk, List.map_cons, List.nodup_cons]
      subst hk
      exact h
    · simp only [addToMap, if_neg hk, List.map_cons, List.nodup_cons]
      refine ⟨?_, nodup_keys_addToMap rest k v h.2⟩
      intro hmem
      rw [mem_keys_addToMap] at hmem
      rcases hmem with hmem | hmem
      · exact h.1 hmem
      · exact hk hmem

lemma nodup_keys_amStep (m : AMap) (p : Posting) (h : (m.map Prod.fst).Nodup) :
    ((amStep m p).map Prod.fst).Nodup := by
  unfold amStep
  cases p.meta with
  | none => exact h
  | some mm =>
    dsimp only
    split_ifs with h1 h2
    · exact h
    · exact h
    · cases p.units with
      | missing => exact h
      | other => exact h
      | amount n c =>
        cases c with
        | str s => exact nodup_keys_addToMap m _ _ h
        | nonstr => exact h

lemma nodup_keys_foldl : ∀ (ps : List Posting) (m : AMap),
    (m.map Prod.fst).Nodup → ((ps.foldl amStep m).map Prod.fst).Nodup
  | [], _, h => h
  | p :: ps, m, h => nodup_keys_foldl ps (amStep m p) (nodup_keys_amStep m p h)

lemma nodup_keys_amounts_map (e : Transaction) : ((amounts_map e).map Prod.fst).Nodup :=
  nodup_keys_foldl e.postings [] (by simp)

/-! ## Symmetry of the comparator -/

lemma normDiff_one_div (t : ℚ) (ht : 0 < t) : normDiff (1 / t) = normDiff t := by
  unfold normDiff
  rcases lt_trichotomy t 1 with h | h | h
  · have h1 : 1 < 1 / t := one_lt_one_div ht h
    rw [if_neg (not_lt.2 h1.le), if_pos h]
  · rw [h]
    norm_num
  · have h1 : 1 / t < 1 := by
      rw [div_lt_one ht]
      exact h
    rw [if_pos h1, if_neg (not_lt.2 h.le), one_div_one_div]

lemma keyStep_symm (n1 n2 : ℚ) : keyStep n1 n2 = keyStep n2 n1 := by
  simp only [keyStep]
  by_cases h1 : n1 = 0 <;> by_cases h2 : n2 = 0
  · simp [h1, h2]
  · simp [h1, h2]
  · simp [h1, h2]
  · have e2 : (if n2 ≠ 0 then n1 / n2 else n2 / n1) = n1 / n2 := if_pos h2
    have e1 : (if n1 ≠ 0 then n2 / n1 else n1 / n2) = n2 / n1 := if_pos h1
    rw [if_neg (show ¬ (n1 = 0 ∧ n2 = 0) by tauto),
      if_neg (show ¬ (n2 = 0 ∧ n1 = 0) by tauto), e1, e2]
    have habs : abs (n2 / n1) = 1 / abs (n1 / n2) := by
      rw [abs_div, abs_div, one_div_div]
    have hpos : 0 < abs (n1 / n2) := abs_pos.2 (div_ne_zero h1 h2)
    rw [habs, normDiff_one_div _ hpos]
    rw [if_neg (show ¬ (abs (n1 / n2) = 0) from ne_of_gt hpos),
      if_neg (show ¬ (1 / abs (n1 / n2) = 0) from one_div_ne_zero (ne_of_gt hpos))]

lemma scanKeys_symm (a1 a2 : AMap) : ∀ ks, scanKeys a1 a2 ks = scanKeys a2 a1 ks
  | [] => rfl
  | k :: ks => by
    simp only [scanKeys]
    rw [keyStep_symm]
    cases keyStep (lookupAmount a2 k) (lookupAmount a1 k) with
    | some b => rfl
    | none => exact scanKeys_symm a1 a2 ks

lemma dateDelta_symm (e1 e2 : Transaction) : dateDelta e1 e2 = dateDelta e2 e1 := by
  unfold dateDelta
  split_ifs <;> omega

lemma dateGateFails_symm (mdd : Option ℕ) (e1 e2 : Transaction) :
    dateGateFails mdd e1 e2 = dateGateFails mdd e2 e1 := by
  cases mdd with
  | none => rfl
  | some m => simp [dateGateFails, dateDelta_symm e1 e2]

lemma commonKeys_symm (a1 a2 : AMap)
    (h1 : (a1.map Prod.fst).Nodup) (h2 : (a2.map Prod.fst).Nodup) :
    commonKeys a1 a2 = commonKeys a2 a1 := by
  unfold commonKeys
  apply List.eq_of_perm_of_sorted ?_ (List.sorted_insertionSort _ _)
    (List.sorted_insertionSort _ _)
  have hp : List.Perm ((a1.map Prod.fst).filter (fun k => decide (k ∈ a2.map Prod.fst)))
      ((a2.map Prod.fst).filter (fun k => decide (k ∈ a1.map Prod.fst))) := by
    rw [List.perm_ext_iff_of_nodup (h1.filter _) (h2.filter _)]
    intro k
    simp only [List.mem_filter, decide_eq_true_eq]
    exact and_comm
  exact (List.perm_insertionSort _ _).trans
    (hp.trans (List.perm_insertionSort _ _).symm)

/-- C3 (confirmed): the comparator is symmetric: for every pair of entries
and every configuration of the optional maximum date delta (including
none), `comparator(a, b)` returns the same boolean as `comparator(b, a)`. -/
theorem comparator_symmetric (max_date_delta : Option ℕ) (entry1 entry2 : Transaction) :
    comparatorCall max_date_delta entry1 entry2 =
      comparatorCall max_date_delta entry2 entry1 := by
  unfold comparatorCall
  rw [dateGateFails_symm]
  by_cases hg : dateGateFails max_date_delta entry2 entry1 = true
  · rw [if_pos hg, if_pos hg]
  · rw [if_neg hg, if_neg hg,
      commonKeys_symm _ _ (nodup_keys_amounts_map entry1) (nodup_keys_amounts_map entry2),
      scanKeys_symm]

/-! ## Per-key characterizations of the tolerance scan -/

lemma keyStep_of_both_zero {n1 n2 : ℚ} (h1 : n1 = 0) (h2 : n2 = 0) :
    keyStep n1 n2 = some true := by
  simp [keyStep, h1, h2]

lemma keyStep_of_singular {n1 n2 : ℚ}
    (h : (n1 = 0 ∧ n2 ≠ 0) ∨ (n1 ≠ 0 ∧ n2 = 0)) : keyStep n1 n2 = some false := by
  rcases h with ⟨h1, h2⟩ | ⟨h1, h2⟩ <;> simp [keyStep, h1, h2]

lemma keyStep_of_both_nonzero {n1 n2 : ℚ} (h1 : n1 ≠ 0) (h2 : n2 ≠ 0) :
    keyStep n1 n2 =
      if max (abs n1) (abs n2) / min (abs n1) (abs n2) - 1 < EPSILON
      then some true else none := by
  have ha1 : 0 < abs n1 := abs_pos.2 h1
  have ha2 : 0 < abs n2 := abs_pos.2 h2
  have hratio : normDiff (abs (n1 / n2)) = max (abs n1) (abs n2) / min (abs n1) (abs n2) := by
    rw [abs_div]
    unfold normDiff
    rcases lt_or_le (abs n1) (abs n2) with h | h
    · rw [if_pos ((div_lt_one ha2).2 h), one_div_div, max_eq_right h.le, min_eq_left h.le]
    · rw [if_neg (not_lt.2 ((one_le_div ha2).2 h)), max_eq_left h, min_eq_right h]
  simp only [keyStep]
  have e2 : (if n2 ≠ 0 then n1 / n2 else n2 / n1) = n1 / n2 := if_pos h2
  have hpos : 0 < abs (n1 / n2) := abs_pos.2 (div_ne_zero h1 h2)
  rw [if_neg (show ¬ (n1 = 0 ∧ n2 = 0) by tauto), e2,
    if_neg (show ¬ (abs (n1 / n2) = 0) from ne_of_gt hpos), hratio]

/-- Function `keyStep` is `some false` exactly on a singular ratio: one side zero,
the other nonzero. -/
lemma keyStep_eq_some_false_iff (n1 n2 : ℚ) :
    keyStep n1 n2 = some false ↔ ((n1 = 0 ∧ n2 ≠ 0) ∨ (n1 ≠ 0 ∧ n2 = 0)) := by
  constructor
  · intro h
    by_cases h1 : n1 = 0 <;> by_cases h2 : n2 = 0
    · rw [keyStep_of_both_zero h1 h2] at h
      exact absurd h (by simp)
    · exact Or.inl ⟨h1, h2⟩
    · exact Or.inr ⟨h1, h2⟩
    · rw [keyStep_of_both_nonzero h1 h2] at h
      split_ifs at h
      all_goals simp at h
  · exact keyStep_of_singular

/-! ## Behaviour of the scan over a prefix of keys -/

lemma scanKeys_append_continue (a1 a2 : AMap) (pre rest : List AmountKey)
    (hpre : ∀ k ∈ pre, keyStep (lookupAmount a1 k) (lookupAmount a2 k) = none) :
    scanKeys a1 a2 (pre ++ rest) = scanKeys a1 a2 rest := by
  induction pre with
  | nil => rfl
  | cons k ks ih =>
    simp only [List.cons_append, scanKeys]
    rw [hpre k (by simp)]
    exact ih (fun k' hk' => hpre k' (by simp [hk']))

lemma scanKeys_no_false_reach_true (a1 a2 : AMap) (pre rest : List AmountKey)
    (hpre : ∀ k ∈ pre, keyStep (lookupAmount a1 k) (lookupAmount a2 k) ≠ some false)
    (h : scanKeys a1 a2 rest = true) :
    scanKeys a1 a2 (pre ++ rest) = true := by
  induction pre with
  | nil => simpa using h
  | cons k ks ih =>
    simp only [List.cons_append, scanKeys]
    cases hk : keyStep (lookupAmount a1 k) (lookupAmount a2 k) with
    | none => exact ih (fun k' hk' => hpre k' (by simp [hk']))
    | some b =>
      cases b with
      | true => rfl
      | false => exact absurd hk (hpre k (by simp))

/-! ## Claim theorems: date gate, tolerance boundary, disjoint keys -/

/-- C4 (confirmed): with a maximum date delta configured and strictly
exceeded, the comparator returns false for all entries — in particular for
arbitrarily close fingerprint amounts, so no amount comparison can change
the result; with no maximum configured, the entry dates are irrelevant
(any date difference is tolerated). -/
theorem comparator_date_gate :
    (∀ (mdd : ℕ) (entry1 entry2 : Transaction),
        mdd < dateDelta entry1 entry2 → comparatorCall (some mdd) entry1 entry2 = false) ∧
    (∀ (entry1 entry2 : Transaction) (d1 d2 : ℕ),
        comparatorCall none entry1 entry2 =
          comparatorCall none { entry1 with date := d1 } { entry2 with date := d2 }) := by
  constructor
  · intro mdd e1 e2 h
    have hg : dateGateFails (some mdd) e1 e2 = true := by
      simp only [dateGateFails, decide_eq_true_eq]
      exact h
    unfold comparatorCall
    rw [if_pos hg]
  · intro e1 e2 d1 d2
    rfl

/-- C5 (confirmed): for a common key with both net amounts nonzero, the key
matches exactly when the magnitude ratio normalized to at least one
satisfies (ratio − 1) strictly below `EPSILON = 0.05` in exact arithmetic;
on a match the scan stops with true immediately (one matching key is
sufficient, remaining keys are not consulted), otherwise the scan moves on
to the remaining keys. -/
theorem comparator_tolerance_boundary (a1 a2 : AMap) (k : AmountKey) (ks : List AmountKey)
    (h1 : lookupAmount a1 k ≠ 0) (h2 : lookupAmount a2 k ≠ 0) :
    scanKeys a1 a2 (k :: ks) =
      if max (abs (lookupAmount a1 k)) (abs (lookupAmount a2 k)) /
          min (abs (lookupAmount a1 k)) (abs (lookupAmount a2 k)) - 1 < EPSILON
      then true else scanKeys a1 a2 ks := by
  simp only [scanKeys, keyStep_of_both_nonzero h1 h2]
  by_cases hc : max (abs (lookupAmount a1 k)) (abs (lookupAmount a2 k)) /
      min (abs (lookupAmount a1 k)) (abs (lookupAmount a2 k)) - 1 < EPSILON
  · rw [if_pos hc, if_pos hc]
  · rw [if_neg hc, if_neg hc]

/-- C7 (confirmed): for every pair of entries whose fingerprints have
disjoint key sets, the comparator returns false under every date-delta
configuration — in particular even when the total amounts of the entries are
identical. -/
theorem comparator_disjoint_keys (mdd : Option ℕ) (entry1 entry2 : Transaction)
    (hdisj : ∀ k ∈ (amounts_map entry1).map Prod.fst,
        k ∉ (amounts_map entry2).map Prod.fst) :
    comparatorCall mdd entry1 entry2 = false := by
  unfold comparatorCall
  by_cases hg : dateGateFails mdd entry1 entry2 = true
  · rw [if_pos hg]
  · rw [if_neg hg]
    have hfil : ((amounts_map entry1).map Prod.fst).filter
        (fun k => decide (k ∈ (amounts_map entry2).map Prod.fst)) = [] := by
      rw [List.filter_eq_nil_iff]
      intro k hk
      simpa using hdisj k hk
    unfold commonKeys
    rw [hfil]
    rfl

/-! ## Concrete postings, entries and keys for witnesses and counterexamples -/

/-- A posting as `extract` synthesizes them: an amount with a string
currency and metadata carrying a `fin_id`. -/
def mkPosting (acct fin cur : String) (n : ℚ) : Posting :=
  { account := acct, units := UnitsField.amount n (CurVal.str cur),
    meta := some [(FIN_ID_KEY, fin)] }

/-- A transaction with the given date and postings. -/
def mkEntry (d : ℕ) (ps : List Posting) : Transaction :=
  { date := d, flag := FLAG_OKAY, payee := "", narration := "", postings := ps }

def keyA : AmountKey := ("Assets:A", some "id1", "USD")

def keyB : AmountKey := ("Assets:B", some "id2", "USD")

/-! ## C1: the singular-ratio key short-circuits the scan -/

/-- C1 (corrected): when the sorted common-key scan reaches a key where
exactly one of the two net amounts is zero (a singular ratio), the
comparator returns false immediately from that key, short-circuiting the
scan — the remaining common keys are never examined.  The keys before it
(`pre`) are exactly those on which the scan fell through. -/
theorem comparator_singular_short_circuits (mdd : Option ℕ) (entry1 entry2 : Transaction)
    (pre post : List AmountKey) (k : AmountKey)
    (hsplit : commonKeys (amounts_map entry1) (amounts_map entry2) = pre ++ k :: post)
    (hpre : ∀ k' ∈ pre,
      keyStep (lookupAmount (amounts_map entry1) k')
        (lookupAmount (amounts_map entry2) k') = none)
    (hsing : (lookupAmount (amounts_map entry1) k = 0 ∧
          lookupAmount (amounts_map entry2) k ≠ 0) ∨
        (lookupAmount (amounts_map entry1) k ≠ 0 ∧
          lookupAmount (amounts_map entry2) k = 0)) :
    comparatorCall mdd entry1 entry2 = false := by
  unfold comparatorCall
  by_cases hg : dateGateFails mdd entry1 entry2 = true
  · rw [if_pos hg]
  · rw [if_neg hg, hsplit, scanKeys_append_continue _ _ _ _ hpre]
    simp only [scanKeys, keyStep_of_singular hsing]

def entrySingular1 : Transaction :=
  mkEntry 0 [mkPosting "Assets:A" "id1" "USD" 0, mkPosting "Assets:B" "id2" "USD" 10]

def entrySingular2 : Transaction :=
  mkEntry 0 [mkPosting "Assets:A" "id1" "USD" 5, mkPosting "Assets:B" "id2" "USD" 10]

/-- C1 counterexample: the fingerprints share the sorted keys `[keyA, keyB]`
with amounts `0` vs `5` on `keyA` (singular) and `10` vs `10` on `keyB` (a
perfect match).  The comparator returns false — it short-circuits on `keyA`
and never reaches `keyB` — while the continue-on-miss reading of the spec
returns true. -/
theorem comparator_singular_counterexample :
    comparatorCall none entrySingular1 entrySingular2 = false ∧
    comparatorSpecContinue none entrySingular1 entrySingular2 = true := by
  have hm1 : amounts_map entrySingular1 = [(keyA, 0), (keyB, 10)] := by decide
  have hm2 : amounts_map entrySingular2 = [(keyA, 5), (keyB, 10)] := by decide
  have hck : commonKeys [(keyA, (0 : ℚ)), (keyB, 10)] [(keyA, (5 : ℚ)), (keyB, 10)] =
      [keyA, keyB] := by decide
  have hlA1 : lookupAmount [(keyA, (0 : ℚ)), (keyB, 10)] keyA = 0 := by decide
  have hlA2 : lookupAmount [(keyA, (5 : ℚ)), (keyB, 10)] keyA = 5 := by decide
  have hlB1 : lookupAmount [(keyA, (0 : ℚ)), (keyB, 10)] keyB = 10 := by decide
  have hlB2 : lookupAmount [(keyA, (5 : ℚ)), (keyB, 10)] keyB = 10 := by decide
  constructor
  · unfold comparatorCall
    rw [if_neg (by decide), hm1, hm2, hck]
    have hstep : keyStep (lookupAmount [(keyA, (0 : ℚ)), (keyB, 10)] keyA)
        (lookupAmount [(keyA, (5 : ℚ)), (keyB, 10)] keyA) = some false := by
      rw [hlA1, hlA2]
      exact keyStep_of_singular (Or.inl ⟨rfl, by norm_num⟩)
    simp only [scanKeys, hstep]
  · unfold comparatorSpecContinue
    rw [if_neg (by decide), hm1, hm2, hck]
    have s1 : keyStepSpec (0 : ℚ) 5 = none := by norm_num [keyStepSpec]
    have s2 : keyStepSpec (10 : ℚ) 10 = some true := by
      norm_num [keyStepSpec, EPSILON, abs]
    simp only [scanKeysSpec, hlA1, hlA2, hlB1, hlB2, s1, s2]

def entrySingleZero : Transaction := mkEntry 0 [mkPosting "Assets:C" "id3" "USD" 0]

def entrySingleFive : Transaction := mkEntry 0 [mkPosting "Assets:C" "id3" "USD" 5]

/-- C1 witness: the amended theorem applied to a concrete singular pair. -/
theorem comparator_singular_short_circuits_witness :
    comparatorCall none entrySingleZero entrySingleFive = false :=
  comparator_singular_short_circuits none entrySingleZero entrySingleFive [] []
    ("Assets:C", some "id3", "USD") (by decide) (by simp)
    (Or.inl ⟨by decide, by decide⟩)

/-! ## C6: the double-zero key shortcut, guarded by earlier singular keys -/

/-- C6 (corrected): if the pair passes the date gate and the two entries
share a common key whose net amount is exactly zero on both sides, the
comparator returns true — regardless of the values under the remaining keys —
provided no common key sorted before it has exactly one side zero (such an
earlier singular key instead forces an immediate false, see the
counterexample). -/
theorem comparator_double_zero_guarded (mdd : Option ℕ) (entry1 entry2 : Transaction)
    (pre post : List AmountKey) (k : AmountKey)
    (hg : dateGateFails mdd entry1 entry2 = false)
    (hsplit : commonKeys (amounts_map entry1) (amounts_map entry2) = pre ++ k :: post)
    (hz1 : lookupAmount (amounts_map entry1) k = 0)
    (hz2 : lookupAmount (amounts_map entry2) k = 0)
    (hpre : ∀ k' ∈ pre,
      (lookupAmount (amounts_map entry1) k' = 0 ↔
        lookupAmount (amounts_map entry2) k' = 0)) :
    comparatorCall mdd entry1 entry2 = true := by
  unfold comparatorCall
  rw [if_neg (by simp [hg]), hsplit]
  apply scanKeys_no_false_reach_true
  · intro k' hk'
    rw [ne_eq, keyStep_eq_some_false_iff]
    rintro (⟨z1, z2⟩ | ⟨z1, z2⟩)
    · exact z2 ((hpre k' hk').1 z1)
    · exact z1 ((hpre k' hk').2 z2)
  · simp only [scanKeys, keyStep_of_both_zero hz1 hz2]

def entryDoubleZero1 : Transaction :=
  mkEntry 0 [mkPosting "Assets:A" "id1" "USD" 0, mkPosting "Assets:B" "id2" "USD" 0]

def entryDoubleZero2 : Transaction :=
  mkEntry 0 [mkPosting "Assets:A" "id1" "USD" 5, mkPosting "Assets:B" "id2" "USD" 0]

/-- C6 counterexample: `keyB` is a common key with a zero net amount on both
sides, yet the comparator returns false, because the sorted-earlier common
key `keyA` carries a singular (one-sided zero) pair — refuting "returns
true immediately regardless of the values under any other common keys". -/
theorem comparator_double_zero_counterexample :
    comparatorCall none entryDoubleZero1 entryDoubleZero2 = false ∧
    lookupAmount (amounts_map entryDoubleZero1) keyB = 0 ∧
    lookupAmount (amounts_map entryDoubleZero2) keyB = 0 ∧
    keyB ∈ commonKeys (amounts_map entryDoubleZero1) (amounts_map entryDoubleZero2) := by
  refine ⟨?_, by decide, by decide, by decide⟩
  have hm1 : amounts_map entryDoubleZero1 = [(keyA, 0), (keyB, 0)] := by decide
  have hm2 : amounts_map entryDoubleZero2 = [(keyA, 5), (keyB, 0)] := by decide
  have hck : commonKeys [(keyA, (0 : ℚ)), (keyB, 0)] [(keyA, (5 : ℚ)), (keyB, 0)] =
      [keyA, keyB] := by decide
  unfold comparatorCall
  rw [if_neg (by decide), hm1, hm2, hck]
  have hstep : keyStep (lookupAmount [(keyA, (0 : ℚ)), (keyB, 0)] keyA)
      (lookupAmount [(keyA, (5 : ℚ)), (keyB, 0)] keyA) = some false := by
    rw [show lookupAmount [(keyA, (0 : ℚ)), (keyB, 0)] keyA = 0 by decide,
      show lookupAmount [(keyA, (5 : ℚ)), (keyB, 0)] keyA = 5 by decide]
    exact keyStep_of_singular (Or.inl ⟨rfl, by norm_num⟩)
  simp only [scanKeys, hstep]

def entryBothZero1 : Transaction := mkEntry 0 [mkPosting "Assets:D" "id4" "USD" 0]

def entryBothZero2 : Transaction := mkEntry 3 [mkPosting "Assets:D" "id4" "USD" 0]

/-- C6 witness: the amended theorem applied to a concrete double-zero pair. -/
theorem comparator_double_zero_guarded_witness :
    comparatorCall none entryBothZero1 entryBothZero2 = true :=
  comparator_double_zero_guarded none entryBothZero1 entryBothZero2 [] []
    ("Assets:D", some "id4", "USD") rfl (by decide) (by decide) (by decide) (by simp)

/-! ## Witnesses for the date gate, tolerance boundary and disjoint keys -/

def entryGate1 : Transaction := mkEntry 10 []

def entryGate2 : Transaction := mkEntry 13 []

/-- C4 witness: dates 10 and 13 with a maximum delta of 1 give false; with
no maximum the dates can be changed arbitrarily without changing the
result. -/
theorem comparator_date_gate_witness :
    comparatorCall (some 1) entryGate1 entryGate2 = false ∧
    comparatorCall none entryGate1 entryGate2 =
      comparatorCall none { entryGate1 with date := 0 } { entryGate2 with date := 99 } :=
  ⟨comparator_date_gate.1 1 entryGate1 entryGate2 (by decide),
   comparator_date_gate.2 entryGate1 entryGate2 0 99⟩

def mapNear1 : AMap := [(keyA, 1049 / 1000)]

def mapNear2 : AMap := [(keyA, 1)]

/-- C5 witness: amounts in ratio 1.049 on the single common key match (the
normalized ratio minus one is 0.049 < 0.05). -/
theorem comparator_tolerance_boundary_witness :
    scanKeys mapNear1 mapNear2 [keyA] = true := by
  have h := comparator_tolerance_boundary mapNear1 mapNear2 keyA []
    (by norm_num [mapNear1, lookupAmount]) (by norm_num [mapNear2, lookupAmount])
  rw [h]
  norm_num [mapNear1, mapNear2, lookupAmount, EPSILON, abs]

def entryDisjoint1 : Transaction := mkEntry 0 [mkPosting "Assets:A" "id1" "USD" 7]

def entryDisjoint2 : Transaction := mkEntry 0 [mkPosting "Assets:E" "id5" "USD" 7]

/-- C7 witness: disjoint key sets (different accounts and identifiers) with
identical amounts still compare as false. -/
theorem comparator_disjoint_keys_witness :
    comparatorCall none entryDisjoint1 entryDisjoint2 = false :=
  comparator_disjoint_keys none entryDisjoint1 entryDisjoint2 (by decide)

/-! ## C9 and C10: which postings contribute to the fingerprint -/

/-- The postings `amounts_map` keeps: truthy (present, non-empty) metadata,
no interpolation marker, a `fin_id`, and units that are an amount whose
currency is a string — the complement of the skip conditions of lines
93-99. -/
def keepPosting (posting : Posting) : Bool :=
  match posting.meta with
  | none => false
  | some m =>
    if m.isEmpty then false
    else if metaHasKey m AUTOMATIC_META || !(metaHasKey m FIN_ID_KEY) then false
    else
      match posting.units with
      | UnitsField.amount _ (CurVal.str _) => true
      | _ => false

lemma amStep_of_not_keep (amounts : AMap) (p : Posting) (h : keepPosting p = false) :
    amStep amounts p = amounts := by
  unfold keepPosting at h
  unfold amStep
  cases hm : p.meta with
  | none => rfl
  | some m =>
    rw [hm] at h
    dsimp only at h ⊢
    by_cases h1 : m.isEmpty = true
    · rw [if_pos h1]
    · rw [if_neg h1] at h ⊢
      by_cases h2 : (metaHasKey m AUTOMATIC_META || !(metaHasKey m FIN_ID_KEY)) = true
      · rw [if_pos h2]
      · rw [if_neg h2] at h ⊢
        cases hu : p.units with
        | missing => rfl
        | other => rfl
        | amount n c =>
          cases c with
          | nonstr => rfl
          | str s =>
            rw [hu] at h
            simp at h

lemma keepPosting_eq_false_of (p : Posting)
    (h : p.meta = none ∨ p.meta = some [] ∨
      (∃ m, p.meta = some m ∧
        (metaHasKey m AUTOMATIC_META = true ∨ metaHasKey m FIN_ID_KEY = false)) ∨
      (∀ (n : ℚ) (s : String), p.units ≠ UnitsField.amount n (CurVal.str s))) :
    keepPosting p = false := by
  unfold keepPosting
  rcases h with h | h | ⟨m, hm, hcond⟩ | h
  · rw [h]
  · rw [h]
    rfl
  · rw [hm]
    dsimp only
    by_cases h1 : m.isEmpty = true
    · rw [if_pos h1]
    · rw [if_neg h1,
        if_pos (show (metaHasKey m AUTOMATIC_META || !(metaHasKey m FIN_ID_KEY)) = true by
          rcases hcond with hc | hc <;> simp [hc])]
  · cases hm : p.meta with
    | none => rfl
    | some m =>
      dsimp only
      by_cases h1 : m.isEmpty = true
      · rw [if_pos h1]
      · rw [if_neg h1]
        by_cases h2 : (metaHasKey m AUTOMATIC_META || !(metaHasKey m FIN_ID_KEY)) = true
        · rw [if_pos h2]
        · rw [if_neg h2]
          cases hu : p.units with
          | missing => rfl
          | other => rfl
          | amount n c =>
            cases c with
            | nonstr => rfl
            | str s => exact absurd hu (h n s)

lemma foldl_amStep_filter : ∀ (ps : List Posting) (m : AMap),
    ps.foldl amStep m = (ps.filter keepPosting).foldl amStep m
  | [], _ => rfl
  | p :: ps, m => by
    by_cases hk : keepPosting p = true
    · rw [List.filter_cons_of_pos hk]
      simp only [List.foldl_cons]
      exact foldl_amStep_filter ps (amStep m p)
    · have hk' : keepPosting p = false := by simpa using hk
      rw [List.filter_cons_of_neg (by simp [hk'])]
      simp only [List.foldl_cons]
      rw [amStep_of_not_keep m p hk']
      exact foldl_amStep_filter ps m

/-- C9 (confirmed): the fingerprint of an entry receives no contribution
from a posting with no (or empty) metadata, with the interpolation marker,
without a `fin_id`, or whose units are not an amount carrying a string
currency (the well-formedness test of the code for the currency): the map equals
the fold over exactly the remaining postings, and the aggregation step
leaves the map unchanged on every excluded posting. -/
theorem amounts_map_excludes_untagged (entry : Transaction) :
    amounts_map entry = (entry.postings.filter keepPosting).foldl amStep [] ∧
    (∀ (amounts : AMap) (p : Posting),
      (p.meta = none ∨ p.meta = some [] ∨
        (∃ m, p.meta = some m ∧
          (metaHasKey m AUTOMATIC_META = true ∨ metaHasKey m FIN_ID_KEY = false)) ∨
        (∀ (n : ℚ) (s : String), p.units ≠ UnitsField.amount n (CurVal.str s))) →
      amStep amounts p = amounts) := by
  refine ⟨foldl_amStep_filter entry.postings [], ?_⟩
  intro amounts p h
  exact amStep_of_not_keep amounts p (keepPosting_eq_false_of p h)

def postingEmptyMeta : Posting :=
  { account := "Assets:A", units := UnitsField.amount 7 (CurVal.str "USD"),
    meta := some [] }

/-- C9 witness: a posting with an empty (falsy) metadata dict contributes
nothing. -/
theorem amounts_map_excludes_untagged_witness : amStep [] postingEmptyMeta = [] :=
  (amounts_map_excludes_untagged (mkEntry 0 [postingEmptyMeta])).2 [] postingEmptyMeta
    (Or.inr (Or.inl rfl))

/-- C10 (corrected): a posting whose units field is absent, or is not an
amount, or is an amount whose attached currency is not a string, is
silently skipped by the (total) aggregation step. -/
theorem amStep_skips_malformed_units (amounts : AMap) (p : Posting)
    (h : p.units = UnitsField.missing ∨ p.units = UnitsField.other ∨
      ∃ n, p.units = UnitsField.amount n CurVal.nonstr) :
    amStep amounts p = amounts := by
  apply amStep_of_not_keep
  apply keepPosting_eq_false_of
  refine Or.inr (Or.inr (Or.inr ?_))
  intro n s hne
  rcases h with h | h | ⟨n', h⟩ <;> rw [h] at hne <;> simp at hne

def postingEmptyCurrency : Posting :=
  { account := "Assets:A", units := UnitsField.amount 5 (CurVal.str ""),
    meta := some [(FIN_ID_KEY, "fid")] }

/-- C10 counterexample: the empty string IS a string, so a posting whose
currency is `""` is not skipped: it contributes its amount to the
fingerprint under a key whose currency component is the empty string. -/
theorem amounts_map_empty_currency_included :
    amounts_map (mkEntry 0 [postingEmptyCurrency]) =
      [(("Assets:A", some "fid", ""), 5)] ∧
    amounts_map (mkEntry 0 [postingEmptyCurrency]) ≠ [] := by
  constructor
  · decide
  · decide

def postingNoUnits : Posting :=
  { account := "Assets:A", units := UnitsField.missing,
    meta := some [(FIN_ID_KEY, "zz")] }

/-- C10 witness: a posting with absent units is skipped even though its
metadata carries a linkage identifier. -/
theorem amStep_skips_malformed_units_witness : amStep [] postingNoUnits = [] :=
  amStep_skips_malformed_units [] postingNoUnits (Or.inl rfl)

/-! ## C2: the payee of an extracted record -/

def txnCounterparty : RawTransaction :=
  { id := "txn_1", date := 5, description := "COFFEE SHOP",
    details := [(COUNTERPARTY_KEY, { name := "Acme Corp" })], amount := 3 }

def jsonCounterparty : TellerJson :=
  { currency := "USD", acct_type := "depository", ledger := 10,
    transactions := [txnCounterparty] }

/-- The canonical transaction the code actually produces for
`txnCounterparty`: its payee is the description. -/
def txnCoffeeProduced : Transaction :=
  { date := 5, flag := FLAG_OKAY, payee := "COFFEE SHOP", narration := "COFFEE SHOP",
    postings := [mkPosting "Assets:Checking" "txn_1" "USD" (-3)] }

def balCoffeeProduced : BalanceDirective :=
  { date := 6, account := "Assets:Checking", number := 10, currency := "USD" }

def txnCounterPartOnly : RawTransaction :=
  { txnCounterparty with details := [(COUNTER_PART_KEY, { name := "X" })] }

/-- C2 (code bug): the details of this record contain a counterparty named
Acme Corp, yet the payee of the extracted entry is the description
COFFEE SHOP, because line 143 tests membership of the key
`counter_part` while line 144 reads the key `counterparty`; moreover a
record that does contain the tested key but not the read key makes the
guarded access raise (`KeyError`), so the guard cannot protect the read it
guards. -/
theorem extract_counter_part_typo :
    assocLookup txnCounterparty.details COUNTERPARTY_KEY = some { name := "Acme Corp" } ∧
    merchOf txnCounterparty = Except.ok "COFFEE SHOP" ∧
    extract "Assets:Checking" jsonCounterparty =
      Except.ok [OutEntry.txn txnCoffeeProduced, OutEntry.bal balCoffeeProduced] ∧
    merchOf txnCounterPartOnly = Except.error () := by
  refine ⟨rfl, rfl, rfl, rfl⟩

/-! ## C8: trailing balance assertion -/

lemma latestFold_init_le : ∀ (ts : List RawTransaction) (a : ℕ),
    a ≤ ts.foldl latestStep a
  | [], a => le_refl a
  | t :: ts, a => by
    have h1 : a ≤ latestStep a t := by
      unfold latestStep
      split_ifs with h
      · omega
      · omega
    exact h1.trans (latestFold_init_le ts (latestStep a t))

lemma latestFold_le : ∀ (ts : List RawTransaction) (a : ℕ) (t : RawTransaction),
    t ∈ ts → t.date ≤ ts.foldl latestStep a
  | [], _, _, h => absurd h (List.not_mem_nil _)
  | u :: us, a, t, h => by
    rcases List.mem_cons.1 h with rfl | h'
    · have h1 : t.date ≤ latestStep a t := by
        unfold latestStep
        split_ifs with hh
        · omega
        · omega
      exact h1.trans (latestFold_init_le us (latestStep a t))
    · exact latestFold_le us (latestStep a u) t h'

lemma latestFold_shape : ∀ (ts : List RawTransaction) (a : ℕ),
    ts.foldl latestStep a = a ∨ ts.foldl latestStep a ∈ ts.map RawTransaction.date
  | [], a => Or.inl rfl
  | t :: ts, a => by
    simp only [List.foldl_cons, List.map_cons, List.mem_cons]
    rcases latestFold_shape ts (latestStep a t) with h | h
    · rw [h]
      unfold latestStep
      split_ifs with hh
      · exact Or.inr (Or.inl rfl)
      · exact Or.inl rfl
    · exact Or.inr (Or.inr h)

lemma latestDate_is_max (ts : List RawTransaction) (hne : ts ≠ []) :
    (∀ t ∈ ts, t.date ≤ latestDate ts) ∧ latestDate ts ∈ ts.map RawTransaction.date := by
  constructor
  · intro t ht
    exact latestFold_le ts 0 t ht
  · rcases latestFold_shape ts 0 with h | h
    · cases ts with
      | nil => exact absurd rfl hne
      | cons t ts =>
        have h1 := latestFold_le (t :: ts) 0 t (by simp)
        unfold latestDate
        rw [h] at h1 ⊢
        simp only [List.map_cons, List.mem_cons]
        left
        omega
    · exact h

lemma buildTxns_length : ∀ (a c : String) (ts : List RawTransaction)
    (txs : List Transaction), buildTxns a c ts = Except.ok txs → txs.length = ts.length
  | a, c, [], txs, h => by
    simp only [buildTxns] at h
    injection h with h'
    rw [← h']
    rfl
  | a, c, t :: ts, txs, h => by
    simp only [buildTxns] at h
    cases hm : mkTxn a c t with
    | error e => simp [hm] at h
    | ok tx =>
      simp only [hm] at h
      cases hb : buildTxns a c ts with
      | error e => simp [hb] at h
      | ok txs' =>
        simp only [hb] at h
        injection h with h'
        rw [← h']
        simp only [List.length_cons, buildTxns_length a c ts txs' hb]

/-- C8 (confirmed): an empty batch extracts to an empty entry sequence with
no balance assertion; a non-empty batch that extracts successfully yields
exactly the transactions followed by one trailing balance assertion, dated
one day after the latest transaction date of the batch (the fold result is
proved to be that latest date), on the supplied account, with the ledger
balance negated exactly when the account type is the credit/liability
tag. -/
theorem extract_balance_assertion (account_name : String) (j : TellerJson) :
    (j.transactions = [] → extract account_name j = Except.ok []) ∧
    (∀ es, j.transactions ≠ [] → extract account_name j = Except.ok es →
      ∃ ts : List Transaction,
        es = ts.map OutEntry.txn ++ [OutEntry.bal
          { date := latestDate j.transactions + 1, account := account_name,
            number := if j.acct_type = CREDIT then -j.ledger else j.ledger,
            currency := j.currency }] ∧
        (∀ t ∈ j.transactions, t.date ≤ latestDate j.transactions) ∧
        latestDate j.transactions ∈ j.transactions.map RawTransaction.date) := by
  constructor
  · intro h
    simp [extract, h, buildTxns]
  · intro es hne h
    unfold extract at h
    cases hb : buildTxns account_name j.currency j.transactions with
    | error e => simp [hb] at h
    | ok ts =>
      simp only [hb] at h
      have hlen : ts.length = j.transactions.length := buildTxns_length _ _ _ _ hb
      have hpos : (ts.map OutEntry.txn).length ≠ 0 := by
        simp only [List.length_map, hlen]
        intro h0
        exact hne (List.length_eq_zero.1 h0)
      rw [if_pos hpos] at h
      injection h with h'
      exact ⟨ts, h'.symm, (latestDate_is_max j.transactions hne).1,
        (latestDate_is_max j.transactions hne).2⟩

def txnDay3 : RawTransaction :=
  { id := "t3", date := 3, description := "A", details := [], amount := 20 }

def txnDay5 : RawTransaction :=
  { id := "t5", date := 5, description := "B", details := [], amount := 30 }

def jsonCredit : TellerJson :=
  { currency := "USD", acct_type := "credit", ledger := 120,
    transactions := [txnDay3, txnDay5] }

def txnDay3Produced : Transaction :=
  { date := 3, flag := FLAG_OKAY, payee := "A", narration := "A",
    postings := [mkPosting "Liabilities:Card" "t3" "USD" (-20)] }

def txnDay5Produced : Transaction :=
  { date := 5, flag := FLAG_OKAY, payee := "B", narration := "B",
    postings := [mkPosting "Liabilities:Card" "t5" "USD" (-30)] }

def balCreditProduced : BalanceDirective :=
  { date := 6, account := "Liabilities:Card", number := -120, currency := "USD" }

def esCredit : List OutEntry :=
  [OutEntry.txn txnDay3Produced, OutEntry.txn txnDay5Produced,
   OutEntry.bal balCreditProduced]

/-- C8 witness: records dated day 3 and day 5 on a "credit" account with
ledger balance 120 extract to two transactions followed by one balance
assertion dated day 6 whose amount is −120. -/
theorem extract_balance_assertion_witness :
    ∃ ts : List Transaction,
      esCredit = ts.map OutEntry.txn ++ [OutEntry.bal
        { date := latestDate jsonCredit.transactions + 1, account := "Liabilities:Card",
          number := if jsonCredit.acct_type = CREDIT then -jsonCredit.ledger
            else jsonCredit.ledger,
          currency := jsonCredit.currency }] ∧
      (∀ t ∈ jsonCredit.transactions, t.date ≤ latestDate jsonCredit.transactions) ∧
      latestDate jsonCredit.transactions ∈
        jsonCredit.transactions.map RawTransaction.date :=
  (extract_balance_assertion "Liabilities:Card" jsonCredit).2 esCredit (by decide)
    (by rfl)
